import Mathlib

/-!
Verification of the dotbot `brew` plugin (`brew.py`).

The plugin translates declarative configuration entries (package names, tap
names, bundle file paths, a bootstrap toggle) into shell invocations of the
Homebrew binary.  We embed the plugin shallowly:

* the shell is an oracle `sh : String → Int` mapping a command line to the
  exit code of `subprocess.call` on it;
* every spawned subprocess is recorded as an `Exec` value (command line plus
  the configuration of the three standard streams), so "no subprocess was
  spawned" is a statement about an explicit trace;
* log output is recorded as a list of `LogMsg` values;
* the name-extraction regular expression `^(?:.+/)?(.+?)(?: .+)?$` of
  `_install` (brew.py line 135) is embedded as an operational backtracking
  matcher specialised to this pattern, following the order in which a
  backtracking engine explores alternatives (greedy optional prefix, lazy
  group, greedy optional suffix), so that group 1 of the first overall match
  is computed exactly as `re.search` computes it.
-/

/-- The value passed for one standard-stream slot of a spawned subprocess:
`fd1` models the literal Python value `True` being passed — `subprocess.call`
treats a plain int (and `bool` is an int, `True = 1`) as a file descriptor,
so `True` means file descriptor 1, the parent's standard output; `null`
models redirection to `os.devnull`. -/
inductive StdStream where
  | fd1 : StdStream
  | null : StdStream
  deriving DecidableEq, Repr

/-- Where a child's standard stream ends up attached. -/
inductive StreamDest where
  | parentStdin : StreamDest
  | parentStdout : StreamDest
  | parentStderr : StreamDest
  | null : StreamDest
  deriving DecidableEq, Repr

/-- CPython `subprocess` semantics of the two argument values the plugin can
pass for a stream slot: an int argument is used as a file descriptor, and
`True` is the int 1 — the parent's standard output — while the devnull handle
discards the stream.  (This is the behaviour of the Python runtime, outside
brew.py itself.) -/
def argDest : StdStream → StreamDest
  | .fd1 => .parentStdout
  | .null => .null

/-- The per-directive stream options (brew.py `_defaults`, merged in `handle`):
three boolean switches, one per standard stream. -/
structure InstallOptions where
  stdin : Bool
  stdout : Bool
  stderr : Bool
  deriving DecidableEq, Repr

/-- Severity of a log line (`self._log.debug/info/warning/error`). -/
inductive LogLevel where
  | debug : LogLevel
  | info : LogLevel
  | warning : LogLevel
  | error : LogLevel
  deriving DecidableEq, Repr

/-- One log line. -/
structure LogMsg where
  level : LogLevel
  text : String
  deriving DecidableEq, Repr

/-- Record of one spawned subprocess: the command string handed to
`subprocess.call(..., shell=True)` and the settings of the three standard
streams. -/
structure Exec where
  cmd : String
  stdin : StdStream
  stdout : StdStream
  stderr : StdStream
  deriving DecidableEq, Repr

/-- Result of one directive handler: the boolean returned to dotbot, the
subprocesses spawned (in order), and the log lines emitted (in order). -/
structure RunResult where
  ok : Bool
  procs : List Exec
  logs : List LogMsg
  deriving DecidableEq, Repr

/-! ## The name-extraction regular expression

`re.search(r"^(?:.+/)?(.+?)(?: .+)?$", pkg)` — brew.py line 135.  The pattern
is anchored on both sides (`^` matches only at position 0 without
`re.MULTILINE`, so `re.search` cannot shift the start), `.` does not match a
newline, and `$` matches at the end of the string or just before a newline
that ends the string. -/

/-- `.` : any character except a newline. -/
def dotMatch (c : Char) : Bool := c ≠ '\n'

/-- Python `$` at the current position: the rest of the input is empty or is
exactly a final newline. -/
def dollar : List Char → Bool
  | [] => true
  | [c] => c = '\n'
  | _ => false

/-- Acceptance of `.+$`: one or more `.`-characters followed by `$`. -/
def plusDots : List Char → Bool
  | [] => false
  | c :: rest => dotMatch c && (dollar rest || plusDots rest)

/-- Acceptance of `(?: .+)?$`: the greedy optional suffix ` .+` (a space and
at least one further `.`-character), then `$`. -/
def tailOk (r : List Char) : Bool :=
  (match r with
   | c :: rest => c = ' ' && plusDots rest
   | _ => false) || dollar r

/-- `(.+?)(?: .+)?$` run at the current position: the lazy group grows one
`.`-character at a time, and the first group length whose remainder satisfies
`tailOk` wins; returns the captured group (accumulated in `acc`). -/
def lazyGroup : List Char → List Char → Option (List Char)
  | [], _ => none
  | c :: rest, acc =>
      if dotMatch c then
        if tailOk rest then some (acc ++ [c])
        else lazyGroup rest (acc ++ [c])
      else none

/-- Scanning for `(?:.+/)`: remainders of the input just after each `/` the
prefix can end at, in left-to-right order of the `/`.  The character at
position 0 was already consumed by `.+` (the prefix needs at least one
`.`-character before the slash), so the scan starts at position 1; it stops
at a newline, which `.` cannot cross. -/
def remsAux : List Char → List (List Char)
  | [] => []
  | c :: rest =>
      if c = '\n' then []
      else if c = '/' then rest :: remsAux rest
      else remsAux rest

/-- The non-empty alternatives of `(?:.+/)?`: since `.+` is greedy, the
engine tries the longest prefix (the rightmost reachable `/`) first, so the
scan results are reversed. -/
def headCands : List Char → List (List Char)
  | [] => []
  | c :: rest => if c = '\n' then [] else (remsAux rest).reverse

/-- All alternatives of `(?:.+/)?` in backtracking order: the `.+/`
alternatives, longest first, then the empty alternative (no prefix). -/
def headAlts (s : List Char) : List (List Char) := headCands s ++ [s]

/-- `re.search(r"^(?:.+/)?(.+?)(?: .+)?$", s)`, returning group 1 of the
match if any: try each prefix alternative in backtracking order, run the
lazy-group tail on the remainder, and keep the first success. -/
def regexSearch (s : List Char) : Option (List Char) :=
  List.findSome? (fun r => lazyGroup r []) (headAlts s)

/-- Lines 135–141 of brew.py: `pkg_parse = re.search(...)`; `pkg_parse[1]`. -/
def pkgParse (pkg : String) : Option String :=
  (regexSearch pkg.data).map fun l => ⟨l⟩

-- Sanity checks against the behaviour of CPython's `re` on the same inputs.
example : pkgParse "tap/pkg --flag" = some "pkg" := by decide
example : pkgParse "pkg" = some "pkg" := by decide
example : pkgParse "tap/pkg" = some "pkg" := by decide
example : pkgParse "a/b/c" = some "c" := by decide
example : pkgParse "a/b c/d" = some "d" := by decide
example : pkgParse "x/y/z " = some "z " := by decide
example : pkgParse "a/b/ c" = some " c" := by decide
example : pkgParse "ab/" = some "ab/" := by decide
example : pkgParse "a/b/" = some "b/" := by decide
example : pkgParse "/abc" = some "/abc" := by decide
example : pkgParse " " = some " " := by decide
example : pkgParse "/" = some "/" := by decide
example : pkgParse "a " = some "a " := by decide
example : pkgParse "a b c" = some "a" := by decide
example : pkgParse "pkg\n" = some "pkg" := by decide
example : pkgParse "a\nb" = none := by decide
example : pkgParse "\n" = none := by decide
example : pkgParse "a/b\n" = some "b" := by decide
example : pkgParse "x/y/z a b" = some "z" := by decide
example : pkgParse "a//b" = some "b" := by decide
example : pkgParse "pkg --with/x" = some "x" := by decide
example : pkgParse "a/ b/c" = some "c" := by decide

/-! ## Python `str.format` with one keyword

`_install` formats the check template with `pkg_name=...` and the install
template with `pkg=...` (brew.py lines 145 and 159).  We model the effect on
templates whose only replacement field is that keyword: each occurrence of
`{keyword}` is replaced by the value, scanning left to right and not
rescanning the substituted value.  The fuel is the length of the input; every
step consumes at least one character, so the fuel never runs out. -/

def substFuel (key val : List Char) : Nat → List Char → List Char
  | _, [] => []
  | 0, s => s
  | fuel + 1, c :: rest =>
      if key.isPrefixOf (c :: rest) then
        val ++ substFuel key val fuel (List.drop (key.length - 1) rest)
      else
        c :: substFuel key val fuel rest

/-- `template.format(key=val)` for a template whose only replacement field is
`{key}`. -/
def pyFormat (template key val : String) : String :=
  ⟨substFuel ("\x7b" ++ key ++ "\x7d").data val.data template.data.length template.data⟩

example : pyFormat "brew install \x7bpkg\x7d" "pkg" "tap/pkg --flag"
    = "brew install tap/pkg --flag" := by decide
example : pyFormat "test -d C/\x7bpkg_name\x7d || brew ls \x7bpkg_name\x7d" "pkg_name" "pkg"
    = "test -d C/pkg || brew ls pkg" := by decide
example : pyFormat "command -v brew" "pkg_name" "brew" = "command -v brew" := by decide

/-! ## The shell-invocation helper and the directive handlers -/

/-- The `Exec` record of `_invoke_shell_command` (brew.py lines 62–71): each
stream switch independently selects the value passed for its own slot —
`stdin=True if defaults["stdin"] else devnull`, and likewise for stdout and
stderr.  The switched-on value is the literal `True` (`StdStream.fd1`). -/
def mkExec (cmd : String) (defaults : InstallOptions) : Exec :=
  ⟨cmd,
   if defaults.stdin then .fd1 else .null,
   if defaults.stdout then .fd1 else .null,
   if defaults.stderr then .fd1 else .null⟩

/-- `_invoke_shell_command` (brew.py lines 62–71): run `cmd` through the
shell with the streams dictated by `defaults`; return the exit code together
with the record of the spawned process. -/
def _invoke_shell_command (cmd : String) (defaults : InstallOptions)
    (sh : String → Int) : Int × Exec :=
  (sh cmd, mkExec cmd defaults)

/-- `_install` (brew.py lines 126–164).  Blank package: error, no
subprocess.  No regex match: error, no subprocess.  Otherwise run the check
command (name substituted) with all three streams on `devnull`; exit code 0
means already installed — return `true`.  Otherwise run the install command
(full target substituted) through `_invoke_shell_command` with the caller's
options and return whether it exited 0, logging a warning when it did not. -/
def _install (install_format check_installed_format pkg : String)
    (defaults : InstallOptions) (sh : String → Int) : RunResult :=
  if pkg = "" then
    ⟨false, [], [⟨.error, "Cannot process blank package name"⟩]⟩
  else
    match pkgParse pkg with
    | none =>
        ⟨false, [], [⟨.error, "Package name " ++ pkg ++ " doesn't work for some reason"⟩]⟩
    | some pkg_name =>
        let checkCmd := pyFormat check_installed_format "pkg_name" pkg_name
        let checkProc : Exec := ⟨checkCmd, .null, .null, .null⟩
        let isInstalled := sh checkCmd
        if isInstalled = 0 then
          ⟨true, [checkProc], [⟨.debug, pkg ++ " already installed"⟩]⟩
        else
          let installCmd := pyFormat install_format "pkg" pkg
          let r := _invoke_shell_command installCmd defaults sh
          ⟨0 == r.1,
           [checkProc, r.2],
           [⟨.info, "Installing " ++ pkg⟩] ++
             (if r.1 = 0 then [] else [⟨.warning, "Failed to install [\x7bpkg\x7d]"⟩])⟩

/-- The install template of `_brew` (brew.py line 91). -/
def brewInstallTemplate : String := "/opt/homebrew/bin/brew install \x7bpkg\x7d"

/-- The check template of `_brew` (brew.py lines 92–93). -/
def brewCheckTemplate : String :=
  "test -d /opt/homebrew/Cellar/\x7bpkg_name\x7d || /opt/homebrew/bin/brew ls --versions \x7bpkg_name\x7d"

/-- The install template of `_cask` (brew.py line 111). -/
def caskInstallTemplate : String := "/opt/homebrew/bin/brew install --cask \x7bpkg\x7d"

/-- The check template of `_cask` (brew.py lines 112–113). -/
def caskCheckTemplate : String :=
  "test -d /opt/homebrew/Caskroom/\x7bpkg_name\x7d || /opt/homebrew/bin/brew ls --cask --versions \x7bpkg_name\x7d"

/-- One iteration of the loop of `_brew` (brew.py lines 89–99), acting on the
accumulated (result, processes, logs). -/
def brewStep (defaults : InstallOptions) (sh : String → Int)
    (acc : Bool × List Exec × List LogMsg) (pkg : String) :
    Bool × List Exec × List LogMsg :=
  let run := _install brewInstallTemplate brewCheckTemplate pkg defaults sh
  (acc.1 && run.ok,
   acc.2.1 ++ run.procs,
   acc.2.2 ++ run.logs ++
     (if run.ok then [] else [⟨.error, "Some packages were not installed"⟩]))

/-- `_brew` (brew.py lines 86–104): fold the loop body over the package list
starting from `result = True`, then log the closing info line when every
package succeeded. -/
def _brew (packages : List String) (defaults : InstallOptions)
    (sh : String → Int) : RunResult :=
  let r := packages.foldl (brewStep defaults sh) (true, [], [])
  ⟨r.1, r.2.1,
   r.2.2 ++ (if r.1 then [⟨.info, "All brew packages have been installed"⟩] else [])⟩

/-- One iteration of the loop of `_cask` (brew.py lines 109–119). -/
def caskStep (defaults : InstallOptions) (sh : String → Int)
    (acc : Bool × List Exec × List LogMsg) (pkg : String) :
    Bool × List Exec × List LogMsg :=
  let run := _install caskInstallTemplate caskCheckTemplate pkg defaults sh
  (acc.1 && run.ok,
   acc.2.1 ++ run.procs,
   acc.2.2 ++ run.logs ++
     (if run.ok then [] else [⟨.error, "Some packages were not installed"⟩]))

/-- `_cask` (brew.py lines 106–124). -/
def _cask (packages : List String) (defaults : InstallOptions)
    (sh : String → Int) : RunResult :=
  let r := packages.foldl (caskStep defaults sh) (true, [], [])
  ⟨r.1, r.2.1,
   r.2.2 ++ (if r.1 then [⟨.info, "All cask packages have been installed"⟩] else [])⟩

/-- One iteration of the loop of `_tap` (brew.py lines 76–83): log, build
`brew tap {tap}`, run it through `_invoke_shell_command`, and clear the
result (after a warning) when the command failed. -/
def tapStep (defaults : InstallOptions) (sh : String → Int)
    (acc : Bool × List Exec × List LogMsg) (tap : String) :
    Bool × List Exec × List LogMsg :=
  let cmd := "brew tap " ++ tap
  let r := _invoke_shell_command cmd defaults sh
  (acc.1 && (r.1 == 0),
   acc.2.1 ++ [r.2],
   acc.2.2 ++ [⟨.info, "Tapping " ++ tap⟩] ++
     (if r.1 = 0 then [] else [⟨.warning, "Failed to tap [" ++ tap ++ "]"⟩]))

/-- `_tap` (brew.py lines 73–84). -/
def _tap (tap_list : List String) (defaults : InstallOptions)
    (sh : String → Int) : RunResult :=
  let r := tap_list.foldl (tapStep defaults sh) (true, [], [])
  ⟨r.1, r.2.1, r.2.2⟩

/-- One iteration of the loop of `_brewfile` (brew.py lines 169–175). -/
def brewfileStep (defaults : InstallOptions) (sh : String → Int)
    (acc : Bool × List Exec × List LogMsg) (file : String) :
    Bool × List Exec × List LogMsg :=
  let cmd := "/opt/homebrew/bin/brew bundle --verbose --file=" ++ file
  let r := _invoke_shell_command cmd defaults sh
  (acc.1 && (r.1 == 0),
   acc.2.1 ++ [r.2],
   acc.2.2 ++ [⟨.info, "Installing from file " ++ file⟩] ++
     (if r.1 = 0 then [] else [⟨.warning, "Failed to install file [" ++ file ++ "]"⟩]))

/-- `_brewfile` (brew.py lines 166–177). -/
def _brewfile (brew_files : List String) (defaults : InstallOptions)
    (sh : String → Int) : RunResult :=
  let r := brew_files.foldl (brewfileStep defaults sh) (true, [], [])
  ⟨r.1, r.2.1, r.2.2⟩

/-- The bootstrap command of `_install_brew` (brew.py lines 184–185), with the
link already interpolated by the f-string. -/
def installBrewCmd : String :=
  "/bin/bash -c \"$(curl -fsSL https://raw.githubusercontent.com/Homebrew/install/HEAD/install.sh)\""

/-- `_install_brew` (brew.py lines 179–186): with the toggle off, log an
error and return `false` without touching the shell; otherwise install the
target `brew` with the bootstrap command and the binary-presence check. -/
def _install_brew (val : Bool) (defaults : InstallOptions)
    (sh : String → Int) : RunResult :=
  if !val then
    ⟨false, [], [⟨.error, "Why would you even put `install-brew: false` in there?"⟩]⟩
  else
    _install installBrewCmd "command -v /opt/homebrew/bin/brew" "brew" defaults sh

/-! ## Claims -/

/-- Unfolding of `_install` on a non-empty target the pattern accepts. -/
theorem install_eq_of_parse
    (instFmt chkFmt pkg name : String) (d : InstallOptions) (sh : String → Int)
    (hpkg : pkg ≠ "") (hparse : pkgParse pkg = some name) :
    _install instFmt chkFmt pkg d sh
      = if sh (pyFormat chkFmt "pkg_name" name) = 0 then
          ⟨true, [⟨pyFormat chkFmt "pkg_name" name, .null, .null, .null⟩],
           [⟨.debug, pkg ++ " already installed"⟩]⟩
        else
          ⟨0 == sh (pyFormat instFmt "pkg" pkg),
           [⟨pyFormat chkFmt "pkg_name" name, .null, .null, .null⟩,
            mkExec (pyFormat instFmt "pkg" pkg) d],
           [⟨.info, "Installing " ++ pkg⟩] ++
             (if sh (pyFormat instFmt "pkg" pkg) = 0 then []
              else [⟨.warning, "Failed to install [\x7bpkg\x7d]"⟩])⟩ := by
  unfold _install
  rw [if_neg hpkg, hparse]
  rfl

/-- Unfolding of `_install` on a non-empty target the pattern rejects. -/
theorem install_eq_of_noparse
    (instFmt chkFmt pkg : String) (d : InstallOptions) (sh : String → Int)
    (hpkg : pkg ≠ "") (hparse : pkgParse pkg = none) :
    _install instFmt chkFmt pkg d sh
      = ⟨false, [],
         [⟨.error, "Package name " ++ pkg ++ " doesn't work for some reason"⟩]⟩ := by
  unfold _install
  rw [if_neg hpkg, hparse]

/-- C1: For every non-empty target accepted by the name-extraction pattern,
if the check command (with the extracted name substituted) exits with code 0,
then `_install` returns true and the only subprocess spawned is the check
command — the install command is never invoked. -/
theorem c1_check_hit_short_circuits
    (instFmt chkFmt pkg : String) (defaults : InstallOptions) (sh : String → Int)
    (hpkg : pkg ≠ "") (name : String) (hparse : pkgParse pkg = some name)
    (hchk : sh (pyFormat chkFmt "pkg_name" name) = 0) :
    (_install instFmt chkFmt pkg defaults sh).ok = true ∧
    (_install instFmt chkFmt pkg defaults sh).procs
      = [⟨pyFormat chkFmt "pkg_name" name, .null, .null, .null⟩] := by
  rw [install_eq_of_parse instFmt chkFmt pkg name defaults sh hpkg hparse, if_pos hchk]
  exact ⟨rfl, rfl⟩

theorem c1_check_hit_short_circuits_witness :
    (_install "inst" "chk" "pkg" ⟨false, false, false⟩ (fun _ => 0)).ok = true ∧
    (_install "inst" "chk" "pkg" ⟨false, false, false⟩ (fun _ => 0)).procs
      = [⟨pyFormat "chk" "pkg_name" "pkg", .null, .null, .null⟩] :=
  c1_check_hit_short_circuits "inst" "chk" "pkg" ⟨false, false, false⟩ (fun _ => 0)
    (by decide) "pkg" (by decide) rfl

/-- C2: For every non-empty target accepted by the name-extraction pattern,
if the check command exits non-zero, `_install` spawns exactly the check
command followed by the install command with the full target substituted
(streams governed by the caller's options), returns true iff the install
command exits 0, and when the install exit code is non-zero it logs a warning
and returns false. -/
theorem c2_install_path
    (instFmt chkFmt pkg : String) (defaults : InstallOptions) (sh : String → Int)
    (hpkg : pkg ≠ "") (name : String) (hparse : pkgParse pkg = some name)
    (hchk : sh (pyFormat chkFmt "pkg_name" name) ≠ 0) :
    (_install instFmt chkFmt pkg defaults sh).procs
      = [⟨pyFormat chkFmt "pkg_name" name, .null, .null, .null⟩,
         mkExec (pyFormat instFmt "pkg" pkg) defaults] ∧
    ((_install instFmt chkFmt pkg defaults sh).ok = true
      ↔ sh (pyFormat instFmt "pkg" pkg) = 0) ∧
    (sh (pyFormat instFmt "pkg" pkg) ≠ 0 →
      (_install instFmt chkFmt pkg defaults sh).ok = false ∧
      (⟨.warning, "Failed to install [\x7bpkg\x7d]"⟩ : LogMsg)
        ∈ (_install instFmt chkFmt pkg defaults sh).logs) := by
  rw [install_eq_of_parse instFmt chkFmt pkg name defaults sh hpkg hparse, if_neg hchk]
  refine ⟨rfl, ?_, fun hinst => ⟨?_, ?_⟩⟩
  · show (0 == sh (pyFormat instFmt "pkg" pkg)) = true ↔ _
    rw [beq_iff_eq]
    exact eq_comm
  · show (0 == sh (pyFormat instFmt "pkg" pkg)) = false
    rw [beq_eq_false_iff_ne]
    exact fun h => hinst h.symm
  · show _ ∈ _ ++ _
    rw [if_neg hinst]
    simp

theorem c2_install_path_witness :
    ((_install "inst" "chk" "pkg" ⟨false, false, false⟩ (fun c => if c = "inst" then 0 else 1)).ok = true
      ↔ (fun c => if c = "inst" then (0 : Int) else 1) (pyFormat "inst" "pkg" "pkg") = 0) ∧
    (_install "inst" "chk" "pkg" ⟨false, false, false⟩ (fun c => if c = "inst" then 0 else 1)).procs
      = [⟨pyFormat "chk" "pkg_name" "pkg", .null, .null, .null⟩,
         mkExec (pyFormat "inst" "pkg" "pkg") ⟨false, false, false⟩] := by
  have h := c2_install_path "inst" "chk" "pkg" ⟨false, false, false⟩
    (fun c => if c = "inst" then 0 else 1) (by decide) "pkg" (by decide) (by decide)
  exact ⟨h.2.1, h.1⟩

/-- C5: For the empty target string, `_install` returns false immediately,
logging an error and spawning no subprocess at all. -/
theorem c5_blank_target
    (instFmt chkFmt : String) (defaults : InstallOptions) (sh : String → Int) :
    _install instFmt chkFmt "" defaults sh
      = ⟨false, [], [⟨.error, "Cannot process blank package name"⟩]⟩ := rfl

/-- C6: For every target and any two caller-supplied options, the check
command (the first subprocess, whenever one is spawned at all) runs with all
three standard streams on the null device, and is identical no matter which
options the caller supplied. -/
theorem c6_check_streams_fixed
    (instFmt chkFmt pkg : String) (d d' : InstallOptions) (sh : String → Int) :
    (∀ e : Exec, (_install instFmt chkFmt pkg d sh).procs.head? = some e →
      e.stdin = .null ∧ e.stdout = .null ∧ e.stderr = .null) ∧
    (_install instFmt chkFmt pkg d sh).procs.head?
      = (_install instFmt chkFmt pkg d' sh).procs.head? := by
  by_cases hpkg : pkg = ""
  · subst hpkg
    exact ⟨fun e he => by simp [_install] at he, rfl⟩
  · cases hparse : pkgParse pkg with
    | none =>
        rw [install_eq_of_noparse instFmt chkFmt pkg d sh hpkg hparse,
            install_eq_of_noparse instFmt chkFmt pkg d' sh hpkg hparse]
        exact ⟨fun e he => by simp at he, rfl⟩
    | some name =>
        rw [install_eq_of_parse instFmt chkFmt pkg name d sh hpkg hparse,
            install_eq_of_parse instFmt chkFmt pkg name d' sh hpkg hparse]
        by_cases hchk : sh (pyFormat chkFmt "pkg_name" name) = 0
        · rw [if_pos hchk, if_pos hchk]
          refine ⟨fun e he => ?_, rfl⟩
          simp only [List.head?_cons, Option.some.injEq] at he
          subst he
          exact ⟨rfl, rfl, rfl⟩
        · rw [if_neg hchk, if_neg hchk]
          refine ⟨fun e he => ?_, rfl⟩
          simp only [List.head?_cons, Option.some.injEq] at he
          subst he
          exact ⟨rfl, rfl, rfl⟩

theorem c6_check_streams_fixed_witness :
    (⟨pyFormat "chk" "pkg_name" "pkg", .null, .null, .null⟩ : Exec).stdin = .null ∧
    (⟨pyFormat "chk" "pkg_name" "pkg", .null, .null, .null⟩ : Exec).stdout = .null ∧
    (⟨pyFormat "chk" "pkg_name" "pkg", .null, .null, .null⟩ : Exec).stderr = .null :=
  (c6_check_streams_fixed "inst" "chk" "pkg" ⟨true, true, true⟩ ⟨false, false, false⟩
    (fun _ => 0)).1 ⟨pyFormat "chk" "pkg_name" "pkg", .null, .null, .null⟩ (by decide)

/-- C7 counterexample: the claim that a switched-on stream is "inherited
from the parent process" fails on the code.  With all three switches on, the
value passed for every slot is `True` — file descriptor 1 — so the child's
stdin and stderr are attached to the parent's STDOUT, not to the parent's
corresponding streams; only stdout coincides with inheritance. -/
theorem c7_stream_switches_counterexample :
    argDest (_invoke_shell_command "cmd" ⟨true, true, true⟩ (fun _ => 0)).2.stdin
        ≠ StreamDest.parentStdin ∧
    argDest (_invoke_shell_command "cmd" ⟨true, true, true⟩ (fun _ => 0)).2.stderr
        ≠ StreamDest.parentStderr ∧
    argDest (_invoke_shell_command "cmd" ⟨true, true, true⟩ (fun _ => 0)).2.stdout
        = StreamDest.parentStdout := by
  exact ⟨by decide, by decide, rfl⟩

/-- C7 (amended): Each of the three boolean switches of the options record
independently controls only the value passed for its own stream slot of the
subprocess spawned by `_invoke_shell_command`: the switch off discards the
stream to the null device, the switch on passes the literal `True`, which
CPython reads as file descriptor 1 and therefore attaches the stream to the
parent's standard output — this coincides with inheriting the corresponding
parent stream for stdout only, and never yields the parent's stdin or
stderr. -/
theorem c7_stream_switch_values (cmd : String) (defaults : InstallOptions) (sh : String → Int) :
    ((_invoke_shell_command cmd defaults sh).2.stdin
        = (if defaults.stdin then .fd1 else .null)) ∧
    ((_invoke_shell_command cmd defaults sh).2.stdout
        = (if defaults.stdout then .fd1 else .null)) ∧
    ((_invoke_shell_command cmd defaults sh).2.stderr
        = (if defaults.stderr then .fd1 else .null)) ∧
    (argDest (_invoke_shell_command cmd defaults sh).2.stdout
        = (if defaults.stdout then StreamDest.parentStdout else StreamDest.null)) ∧
    (argDest (_invoke_shell_command cmd defaults sh).2.stdin ≠ StreamDest.parentStdin) ∧
    (argDest (_invoke_shell_command cmd defaults sh).2.stderr ≠ StreamDest.parentStderr) := by
  obtain ⟨i, o, e⟩ := defaults
  cases i <;> cases o <;> cases e <;>
    simp [_invoke_shell_command, mkExec, argDest]

/-- C8: The bootstrap directive with the toggle set to false returns false,
spawns no subprocess, and logs only the error line. -/
theorem c8_install_brew_disabled (defaults : InstallOptions) (sh : String → Int) :
    _install_brew false defaults sh
      = ⟨false, [],
         [⟨.error, "Why would you even put `install-brew: false` in there?"⟩]⟩ := rfl

/-- The loop of `_brew`, with the accumulator generalised: the running result
is the conjunction of the incoming result with the per-package results, and
the process trace extends the incoming trace with every package's processes,
in list order. -/
theorem brew_foldl_spec (d : InstallOptions) (sh : String → Int)
    (packages : List String) (b : Bool) (ps : List Exec) (ls : List LogMsg) :
    (packages.foldl (brewStep d sh) (b, ps, ls)).1
      = (b && packages.all fun p =>
          (_install brewInstallTemplate brewCheckTemplate p d sh).ok) ∧
    (packages.foldl (brewStep d sh) (b, ps, ls)).2.1
      = ps ++ (packages.flatMap fun p =>
          (_install brewInstallTemplate brewCheckTemplate p d sh).procs) := by
  induction packages generalizing b ps ls with
  | nil => simp
  | cons p rest ih =>
      simp only [List.foldl_cons, brewStep, List.all_cons, List.flatMap_cons]
      obtain ⟨ih1, ih2⟩ := ih (b && (_install brewInstallTemplate brewCheckTemplate p d sh).ok)
        (ps ++ (_install brewInstallTemplate brewCheckTemplate p d sh).procs)
        ((ls ++ (_install brewInstallTemplate brewCheckTemplate p d sh).logs) ++
          (if (_install brewInstallTemplate brewCheckTemplate p d sh).ok then []
           else [⟨.error, "Some packages were not installed"⟩]))
      rw [ih1, ih2]
      exact ⟨by rw [Bool.and_assoc], by rw [List.append_assoc]⟩

/-- The loop of `_cask`, with the accumulator generalised. -/
theorem cask_foldl_spec (d : InstallOptions) (sh : String → Int)
    (packages : List String) (b : Bool) (ps : List Exec) (ls : List LogMsg) :
    (packages.foldl (caskStep d sh) (b, ps, ls)).1
      = (b && packages.all fun p =>
          (_install caskInstallTemplate caskCheckTemplate p d sh).ok) ∧
    (packages.foldl (caskStep d sh) (b, ps, ls)).2.1
      = ps ++ (packages.flatMap fun p =>
          (_install caskInstallTemplate caskCheckTemplate p d sh).procs) := by
  induction packages generalizing b ps ls with
  | nil => simp
  | cons p rest ih =>
      simp only [List.foldl_cons, caskStep, List.all_cons, List.flatMap_cons]
      obtain ⟨ih1, ih2⟩ := ih (b && (_install caskInstallTemplate caskCheckTemplate p d sh).ok)
        (ps ++ (_install caskInstallTemplate caskCheckTemplate p d sh).procs)
        ((ls ++ (_install caskInstallTemplate caskCheckTemplate p d sh).logs) ++
          (if (_install caskInstallTemplate caskCheckTemplate p d sh).ok then []
           else [⟨.error, "Some packages were not installed"⟩]))
      rw [ih1, ih2]
      exact ⟨by rw [Bool.and_assoc], by rw [List.append_assoc]⟩

/-- C3: The batch handlers `_brew` and `_cask` call `_install` on every
target in list order — the process trace is the concatenation of every
target's subprocesses, so no failure stops the remaining targets — and return
the logical AND of the per-target results. -/
theorem c3_batch_all_and
    (packages : List String) (d : InstallOptions) (sh : String → Int) :
    (_brew packages d sh).ok
      = (packages.all fun p =>
          (_install brewInstallTemplate brewCheckTemplate p d sh).ok) ∧
    (_brew packages d sh).procs
      = (packages.flatMap fun p =>
          (_install brewInstallTemplate brewCheckTemplate p d sh).procs) ∧
    (_cask packages d sh).ok
      = (packages.all fun p =>
          (_install caskInstallTemplate caskCheckTemplate p d sh).ok) ∧
    (_cask packages d sh).procs
      = (packages.flatMap fun p =>
          (_install caskInstallTemplate caskCheckTemplate p d sh).procs) := by
  obtain ⟨hb1, hb2⟩ := brew_foldl_spec d sh packages true [] []
  obtain ⟨hc1, hc2⟩ := cask_foldl_spec d sh packages true [] []
  refine ⟨?_, ?_, ?_, ?_⟩
  · show (packages.foldl (brewStep d sh) (true, [], [])).1 = _
    rw [hb1, Bool.true_and]
  · show (packages.foldl (brewStep d sh) (true, [], [])).2.1 = _
    rw [hb2, List.nil_append]
  · show (packages.foldl (caskStep d sh) (true, [], [])).1 = _
    rw [hc1, Bool.true_and]
  · show (packages.foldl (caskStep d sh) (true, [], [])).2.1 = _
    rw [hc2, List.nil_append]

/-- The loop of `_tap`, with the accumulator generalised. -/
theorem tap_foldl_spec (d : InstallOptions) (sh : String → Int)
    (tap_list : List String) (b : Bool) (ps : List Exec) (ls : List LogMsg) :
    (tap_list.foldl (tapStep d sh) (b, ps, ls)).1
      = (b && tap_list.all fun t => sh ("brew tap " ++ t) == 0) ∧
    (tap_list.foldl (tapStep d sh) (b, ps, ls)).2.1
      = ps ++ (tap_list.map fun t => mkExec ("brew tap " ++ t) d) := by
  induction tap_list generalizing b ps ls with
  | nil => simp
  | cons t rest ih =>
      simp only [List.foldl_cons, tapStep, _invoke_shell_command, List.all_cons, List.map_cons]
      obtain ⟨ih1, ih2⟩ := ih (b && (sh ("brew tap " ++ t) == 0))
        (ps ++ [mkExec ("brew tap " ++ t) d])
        ((ls ++ [⟨.info, "Tapping " ++ t⟩]) ++
          (if sh ("brew tap " ++ t) = 0 then []
           else [⟨.warning, "Failed to tap [" ++ t ++ "]"⟩]))
      rw [ih1, ih2]
      exact ⟨by rw [Bool.and_assoc], by rw [List.append_assoc, List.singleton_append]⟩

/-- C9: `_tap` issues exactly one `brew tap` command per tap name, in list
order, with no preceding already-present check (its process trace is exactly
one process per tap), keeps going after any individual failure, and returns
true iff every tap command exited 0. -/
theorem c9_tap_batch (tap_list : List String) (d : InstallOptions) (sh : String → Int) :
    (_tap tap_list d sh).ok
      = (tap_list.all fun t => sh ("brew tap " ++ t) == 0) ∧
    (_tap tap_list d sh).procs
      = (tap_list.map fun t => mkExec ("brew tap " ++ t) d) := by
  obtain ⟨h1, h2⟩ := tap_foldl_spec d sh tap_list true [] []
  refine ⟨?_, ?_⟩
  · show (tap_list.foldl (tapStep d sh) (true, [], [])).1 = _
    rw [h1, Bool.true_and]
  · show (tap_list.foldl (tapStep d sh) (true, [], [])).2.1 = _
    rw [h2, List.nil_append]

/-! ## Properties of the name-extraction matcher -/

/-- A non-empty newline-free input satisfies `.+$`. -/
theorem plusDots_of_ne (l : List Char) (hne : l ≠ []) (hnl : ∀ c ∈ l, c ≠ '\n') :
    plusDots l = true := by
  induction l with
  | nil => exact absurd rfl hne
  | cons c rest ih =>
      have hc : dotMatch c = true := by
        simp [dotMatch]
        exact hnl c (List.mem_cons_self c rest)
      cases rest with
      | nil => simp [plusDots, dollar, hc]
      | cons d rest' =>
          have hr := ih (by simp) (fun x hx => hnl x (List.mem_cons_of_mem c hx))
          have hu : plusDots (c :: d :: rest')
              = (dotMatch c && (dollar (d :: rest') || plusDots (d :: rest'))) := rfl
          rw [hu, hc, hr]
          simp

/-- `$` fails whenever at least two characters remain. -/
theorem dollar_cons_cons (a b : Char) (l : List Char) : dollar (a :: b :: l) = false := rfl

/-- The lazy group finds a match on any non-empty newline-free input. -/
theorem lazyGroup_isSome (l : List Char) (hne : l ≠ []) (hnl : ∀ c ∈ l, c ≠ '\n') :
    ∀ acc : List Char, (lazyGroup l acc).isSome = true := by
  induction l with
  | nil => exact absurd rfl hne
  | cons c rest ih =>
      intro acc
      have hc : dotMatch c = true := by
        simp [dotMatch]
        exact hnl c (List.mem_cons_self c rest)
      rw [lazyGroup, if_pos hc]
      by_cases ht : tailOk rest = true
      · rw [if_pos ht]
        rfl
      · rw [if_neg ht]
        cases rest with
        | nil => exact absurd rfl ht
        | cons d rest' =>
            exact ih (by simp) (fun x hx => hnl x (List.mem_cons_of_mem c hx)) (acc ++ [c])

/-- C10 (totality half, list level): the pattern matches every non-empty
newline-free input — if nothing else, the alternative that skips the optional
prefix succeeds. -/
theorem regexSearch_isSome (s : List Char) (hne : s ≠ []) (hnl : ∀ c ∈ s, c ≠ '\n') :
    (regexSearch s).isSome = true := by
  rw [regexSearch, headAlts, List.findSome?_isSome_iff]
  exact ⟨s, by simp, lazyGroup_isSome s hne hnl []⟩

/-- The prefix scan finds nothing on a slash-free input. -/
theorem remsAux_eq_nil (l : List Char) (h : '/' ∉ l) : remsAux l = [] := by
  induction l with
  | nil => rfl
  | cons c rest ih =>
      rw [remsAux]
      have hc : ¬ c = '/' := fun hh => h (hh ▸ List.mem_cons_self c rest)
      have hr := ih (fun hm => h (List.mem_cons_of_mem c hm))
      by_cases hn : c = '\n'
      · simp [hn]
      · simp [hn, hc, hr]

/-- Scanning past `a` and the separating slash, every remainder collected
before the final slash is followed by the remainder `b` of that final slash,
provided `b` has no slash of its own and `a` has no newline. -/
theorem remsAux_append (a b : List Char) (ha : ∀ c ∈ a, c ≠ '\n') (hb : '/' ∉ b) :
    ∃ l, remsAux (a ++ '/' :: b) = l ++ [b] := by
  induction a with
  | nil =>
      refine ⟨[], ?_⟩
      rw [List.nil_append, remsAux]
      simp [remsAux_eq_nil b hb]
  | cons c a' ih =>
      obtain ⟨l, hl⟩ := ih (fun x hx => ha x (List.mem_cons_of_mem c hx))
      have hc : ¬ c = '\n' := ha c (List.mem_cons_self c a')
      rw [List.cons_append, remsAux]
      by_cases hcs : c = '/'
      · exact ⟨(a' ++ '/' :: b) :: l, by simp [hc, hcs, hl]⟩
      · exact ⟨l, by simp [hc, hcs, hl]⟩

/-- When the input is `a ++ "/" ++ b` with `a` non-empty and newline-free and
`b` slash-free, the greedy prefix alternative tried first hands exactly `b`
to the lazy group. -/
theorem headCands_shape (a b : List Char) (ha : a ≠ []) (hna : ∀ c ∈ a, c ≠ '\n')
    (hb : '/' ∉ b) : ∃ l, headCands (a ++ '/' :: b) = b :: l := by
  cases a with
  | nil => exact absurd rfl ha
  | cons c a' =>
      obtain ⟨l, hl⟩ := remsAux_append a' b (fun x hx => hna x (List.mem_cons_of_mem c hx)) hb
      have hc : ¬ c = '\n' := hna c (List.mem_cons_self c a')
      refine ⟨l.reverse, ?_⟩
      rw [List.cons_append, headCands]
      simp [hc, hl]

/-- Running the whole pattern on `a ++ "/" ++ b`: the first (longest-prefix)
alternative already succeeds, so its group is the overall answer. -/
theorem regexSearch_slash (a b g : List Char) (ha : a ≠ []) (hna : ∀ c ∈ a, c ≠ '\n')
    (hb : '/' ∉ b) (hg : lazyGroup b [] = some g) :
    regexSearch (a ++ '/' :: b) = some g := by
  obtain ⟨l, hl⟩ := headCands_shape a b ha hna hb
  rw [regexSearch, headAlts, hl, List.cons_append,
      List.findSome?_cons_of_isSome _ (by simp [hg]), hg]

/-- On a name with no space and no newline the lazy group swallows the whole
input: no shorter group can satisfy `(?: .+)?$`. -/
theorem lazyGroup_all (name : List Char) (hne : name ≠ [])
    (h : ∀ c ∈ name, c ≠ '\n' ∧ c ≠ ' ') :
    ∀ acc : List Char, lazyGroup name acc = some (acc ++ name) := by
  induction name with
  | nil => exact absurd rfl hne
  | cons c rest ih =>
      intro acc
      have hc := h c (List.mem_cons_self c rest)
      have hdot : dotMatch c = true := by simp [dotMatch, hc.1]
      rw [lazyGroup, if_pos hdot]
      cases rest with
      | nil =>
          have ht : tailOk [] = true := rfl
          rw [if_pos ht]
      | cons d rest' =>
          have hd := h d (List.mem_cons_of_mem c (List.mem_cons_self d rest'))
          have ht : tailOk (d :: rest') = false := by
            cases rest' with
            | nil => simp [tailOk, dollar, hd.1, hd.2]
            | cons e r => simp [tailOk, dollar_cons_cons, hd.2]
          rw [if_neg (by simp [ht])]
          rw [show acc ++ c :: d :: rest' = (acc ++ [c]) ++ d :: rest' by simp]
          exact ih (by simp) (fun x hx => h x (List.mem_cons_of_mem c hx)) (acc ++ [c])

/-- On `name ++ " " ++ flags` (name without spaces or newlines, flags
non-empty and newline-free) the lazy group stops exactly at the space before
the flags: the first group length at which `(?: .+)?$` succeeds is the full
name. -/
theorem lazyGroup_flags (name : List Char) (hne : name ≠ [])
    (h : ∀ c ∈ name, c ≠ '\n' ∧ c ≠ ' ')
    (flags : List Char) (hf : flags ≠ []) (hfn : ∀ c ∈ flags, c ≠ '\n') :
    ∀ acc : List Char, lazyGroup (name ++ ' ' :: flags) acc = some (acc ++ name) := by
  induction name with
  | nil => exact absurd rfl hne
  | cons c rest ih =>
      intro acc
      have hc := h c (List.mem_cons_self c rest)
      have hdot : dotMatch c = true := by simp [dotMatch, hc.1]
      rw [List.cons_append, lazyGroup, if_pos hdot]
      cases rest with
      | nil =>
          have ht : tailOk ([] ++ ' ' :: flags) = true := by
            rw [List.nil_append]
            simp [tailOk, plusDots_of_ne flags hf hfn]
          rw [if_pos ht]
      | cons d rest' =>
          have hd := h d (List.mem_cons_of_mem c (List.mem_cons_self d rest'))
          obtain ⟨x, xs, hxx⟩ : ∃ x xs, rest' ++ ' ' :: flags = x :: xs := by
            cases rest' with
            | nil => exact ⟨' ', flags, rfl⟩
            | cons e r => exact ⟨e, r ++ ' ' :: flags, rfl⟩
          have ht : tailOk (d :: (rest' ++ ' ' :: flags)) = false := by
            rw [hxx]
            simp [tailOk, dollar_cons_cons, hd.2]
          rw [if_neg (by simp [ht])]
          rw [show acc ++ c :: d :: rest' = (acc ++ [c]) ++ d :: rest' by simp]
          exact ih (by simp) (fun x hx => h x (List.mem_cons_of_mem c hx)) (acc ++ [c])

/-- With no slash after position 0, the optional prefix has no alternative to
offer. -/
theorem headCands_cons_no_slash (c : Char) (rest : List Char) (h : '/' ∉ rest) :
    headCands (c :: rest) = [] := by
  rw [headCands]
  by_cases hn : c = '\n'
  · simp [hn]
  · simp [hn, remsAux_eq_nil rest h]

/-- On a slash-free, space-free, newline-free non-empty input the pattern
captures the whole input. -/
theorem regexSearch_no_slash (nm : List Char) (hnm : nm ≠ [])
    (h : ∀ c ∈ nm, c ≠ '\n' ∧ c ≠ ' ') (hnos : '/' ∉ nm) :
    regexSearch nm = some nm := by
  cases nm with
  | nil => exact absurd rfl hnm
  | cons c r =>
      have hr : '/' ∉ r := fun hm => hnos (List.mem_cons_of_mem c hm)
      have hlg : lazyGroup (c :: r) [] = some (c :: r) := by
        simpa using lazyGroup_all (c :: r) hnm h []
      rw [regexSearch, headAlts, headCands_cons_no_slash c r hr, List.nil_append,
          List.findSome?_cons_of_isSome _ (by simp [hlg]), hlg]

/-- On `name ++ " " ++ flags` with no slash anywhere, the pattern captures
exactly the name. -/
theorem regexSearch_no_slash_flags (nm fl : List Char) (hnm : nm ≠ [])
    (h : ∀ c ∈ nm, c ≠ '\n' ∧ c ≠ ' ') (hnos : '/' ∉ nm)
    (hfl : fl ≠ []) (hfn : ∀ c ∈ fl, c ≠ '\n') (hfs : '/' ∉ fl) :
    regexSearch (nm ++ ' ' :: fl) = some nm := by
  cases nm with
  | nil => exact absurd rfl hnm
  | cons c r =>
      have hr : '/' ∉ r := fun hm => hnos (List.mem_cons_of_mem c hm)
      have hslash : '/' ∉ r ++ ' ' :: fl := by
        intro hm
        rcases List.mem_append.1 hm with h1 | h2
        · exact hr h1
        · rcases List.mem_cons.1 h2 with h3 | h4
          · exact absurd h3 (by decide)
          · exact hfs h4
      have hlg : lazyGroup (c :: (r ++ ' ' :: fl)) [] = some (c :: r) := by
        simpa using lazyGroup_flags (c :: r) hnm h fl hfl hfn []
      rw [regexSearch, headAlts, List.cons_append,
          headCands_cons_no_slash c (r ++ ' ' :: fl) hslash, List.nil_append,
          List.findSome?_cons_of_isSome _ (by simp [hlg]), hlg]

/-- A non-empty string has non-empty character data. -/
theorem data_ne_nil (s : String) (h : s ≠ "") : s.data ≠ [] :=
  fun hd => h (congrArg String.mk hd)

/-- `pkgParse` through the list-level matcher. -/
theorem pkgParse_of_data (s nm : String) (h : regexSearch s.data = some nm.data) :
    pkgParse s = some nm := by
  unfold pkgParse
  rw [h]
  rfl

/-- C4: The name-extraction pattern strips an optional leading `namespace/`
prefix and an optional trailing space-separated flags suffix, keeping the
middle token: on `ns ++ "/" ++ name ++ " " ++ flags`, `ns ++ "/" ++ name`,
`name ++ " " ++ flags` and plain `name` (for a slash-, space- and
newline-free name, any non-empty newline-free namespace, and non-empty
slash- and newline-free flags) it yields `name`; in particular it maps
`"tap/pkg --flag"`, `"pkg"` and `"tap/pkg"` to `"pkg"`. -/
theorem c4_name_extraction (ns name flags : String)
    (hns : ns ≠ "") (hnsn : '\n' ∉ ns.data)
    (hname : name ≠ "") (hn1 : '\n' ∉ name.data) (hn2 : ' ' ∉ name.data)
    (hn3 : '/' ∉ name.data)
    (hflags : flags ≠ "") (hf1 : '\n' ∉ flags.data) (hf2 : '/' ∉ flags.data) :
    pkgParse (ns ++ "/" ++ name ++ " " ++ flags) = some name ∧
    pkgParse (ns ++ "/" ++ name) = some name ∧
    pkgParse (name ++ " " ++ flags) = some name ∧
    pkgParse name = some name ∧
    pkgParse "tap/pkg --flag" = some "pkg" ∧
    pkgParse "pkg" = some "pkg" ∧
    pkgParse "tap/pkg" = some "pkg" := by
  have hnsd : ns.data ≠ [] := data_ne_nil ns hns
  have hnsn' : ∀ c ∈ ns.data, c ≠ '\n' := fun c hc he => hnsn (he ▸ hc)
  have hnd : name.data ≠ [] := data_ne_nil name hname
  have hnn : ∀ c ∈ name.data, c ≠ '\n' ∧ c ≠ ' ' :=
    fun c hc => ⟨fun he => hn1 (he ▸ hc), fun he => hn2 (he ▸ hc)⟩
  have hfd : flags.data ≠ [] := data_ne_nil flags hflags
  have hfn : ∀ c ∈ flags.data, c ≠ '\n' := fun c hc he => hf1 (he ▸ hc)
  have hb : '/' ∉ name.data ++ ' ' :: flags.data := by
    intro hm
    rcases List.mem_append.1 hm with h1 | h2
    · exact hn3 h1
    · rcases List.mem_cons.1 h2 with h3 | h4
      · exact absurd h3 (by decide)
      · exact hf2 h4
  refine ⟨?_, ?_, ?_, ?_, by decide, by decide, by decide⟩
  · apply pkgParse_of_data
    have hd : (ns ++ "/" ++ name ++ " " ++ flags).data
        = ns.data ++ '/' :: (name.data ++ ' ' :: flags.data) := by
      simp [String.data_append]
    rw [hd]
    exact regexSearch_slash ns.data (name.data ++ ' ' :: flags.data) name.data
      hnsd hnsn' hb
      (by simpa using lazyGroup_flags name.data hnd hnn flags.data hfd hfn [])
  · apply pkgParse_of_data
    have hd : (ns ++ "/" ++ name).data = ns.data ++ '/' :: name.data := by
      simp [String.data_append]
    rw [hd]
    exact regexSearch_slash ns.data name.data name.data hnsd hnsn' hn3
      (by simpa using lazyGroup_all name.data hnd hnn [])
  · apply pkgParse_of_data
    have hd : (name ++ " " ++ flags).data = name.data ++ ' ' :: flags.data := by
      simp [String.data_append]
    rw [hd]
    exact regexSearch_no_slash_flags name.data flags.data hnd hnn hn3 hfd hfn hf2
  · exact pkgParse_of_data name name (regexSearch_no_slash name.data hnd hnn hn3)

theorem c4_name_extraction_witness :
    pkgParse ("tap" ++ "/" ++ "pkg" ++ " " ++ "--flag") = some "pkg" ∧
    pkgParse ("tap" ++ "/" ++ "pkg") = some "pkg" ∧
    pkgParse ("pkg" ++ " " ++ "--flag") = some "pkg" ∧
    pkgParse "pkg" = some "pkg" := by
  have h := c4_name_extraction "tap" "pkg" "--flag" (by decide) (by decide) (by decide)
    (by decide) (by decide) (by decide) (by decide) (by decide) (by decide)
  exact ⟨h.1, h.2.1, h.2.2.1, h.2.2.2.1⟩

/-- C10: For every non-empty target containing no newline the pattern
produces a match (so the defensive no-match branch of `_install` is
unreachable under that precondition), and on a target with several `/`
separators the captured name is the text after the last slash, up to the
first following space: `p ++ "/" ++ q ++ "/" ++ name ++ " " ++ flags` and
`p ++ "/" ++ q ++ "/" ++ name` both yield `name`. -/
theorem c10_pattern_total_multislash
    (s p q name flags : String)
    (hs : s ≠ "") (hsn : '\n' ∉ s.data)
    (_hp : p ≠ "") (hpn : '\n' ∉ p.data)
    (hq : '\n' ∉ q.data)
    (hname : name ≠ "") (hn1 : '\n' ∉ name.data) (hn2 : ' ' ∉ name.data)
    (hn3 : '/' ∉ name.data)
    (hflags : flags ≠ "") (hf1 : '\n' ∉ flags.data) (hf2 : '/' ∉ flags.data) :
    (pkgParse s).isSome = true ∧
    pkgParse (p ++ "/" ++ q ++ "/" ++ name ++ " " ++ flags) = some name ∧
    pkgParse (p ++ "/" ++ q ++ "/" ++ name) = some name := by
  have hnd : name.data ≠ [] := data_ne_nil name hname
  have hnn : ∀ c ∈ name.data, c ≠ '\n' ∧ c ≠ ' ' :=
    fun c hc => ⟨fun he => hn1 (he ▸ hc), fun he => hn2 (he ▸ hc)⟩
  have hfd : flags.data ≠ [] := data_ne_nil flags hflags
  have hfn : ∀ c ∈ flags.data, c ≠ '\n' := fun c hc he => hf1 (he ▸ hc)
  have hpn' : ∀ c ∈ p.data, c ≠ '\n' := fun c hc he => hpn (he ▸ hc)
  have hqn' : ∀ c ∈ q.data, c ≠ '\n' := fun c hc he => hq (he ▸ hc)
  have ha : p.data ++ '/' :: q.data ≠ [] := by simp
  have hna : ∀ c ∈ p.data ++ '/' :: q.data, c ≠ '\n' := by
    intro c hc
    rcases List.mem_append.1 hc with h1 | h2
    · exact hpn' c h1
    · rcases List.mem_cons.1 h2 with h3 | h4
      · exact h3 ▸ (by decide)
      · exact hqn' c h4
  have hb : '/' ∉ name.data ++ ' ' :: flags.data := by
    intro hm
    rcases List.mem_append.1 hm with h1 | h2
    · exact hn3 h1
    · rcases List.mem_cons.1 h2 with h3 | h4
      · exact absurd h3 (by decide)
      · exact hf2 h4
  refine ⟨?_, ?_, ?_⟩
  · rw [pkgParse]
    have h := regexSearch_isSome s.data (data_ne_nil s hs) (fun c hc he => hsn (he ▸ hc))
    cases hr : regexSearch s.data with
    | none => rw [hr] at h; simp at h
    | some g => rfl
  · apply pkgParse_of_data
    have hd : (p ++ "/" ++ q ++ "/" ++ name ++ " " ++ flags).data
        = (p.data ++ '/' :: q.data) ++ '/' :: (name.data ++ ' ' :: flags.data) := by
      simp [String.data_append]
    rw [hd]
    exact regexSearch_slash (p.data ++ '/' :: q.data)
      (name.data ++ ' ' :: flags.data) name.data ha hna hb
      (by simpa using lazyGroup_flags name.data hnd hnn flags.data hfd hfn [])
  · apply pkgParse_of_data
    have hd : (p ++ "/" ++ q ++ "/" ++ name).data
        = (p.data ++ '/' :: q.data) ++ '/' :: name.data := by
      simp [String.data_append]
    rw [hd]
    exact regexSearch_slash (p.data ++ '/' :: q.data) name.data name.data ha hna hn3
      (by simpa using lazyGroup_all name.data hnd hnn [])

theorem c10_pattern_total_multislash_witness :
    (pkgParse "x").isSome = true ∧
    pkgParse ("a" ++ "/" ++ "b" ++ "/" ++ "pkg" ++ " " ++ "--flag") = some "pkg" ∧
    pkgParse ("a" ++ "/" ++ "b" ++ "/" ++ "pkg") = some "pkg" :=
  c10_pattern_total_multislash "x" "a" "b" "pkg" "--flag" (by decide) (by decide)
    (by decide) (by decide) (by decide) (by decide) (by decide) (by decide)
    (by decide) (by decide) (by decide) (by decide)
